import Mathlib

/-!
Verification development for the etf-monitor holdings-change detection and
reconciliation engine (`improved_etf_scraper_cloud.py`, `database_config.py`,
`fastapi_app.py`).

Modelling conventions:
* Python dicts keyed by strings are modelled as association lists
  (`List (String × α)`) together with `dictInsert` / `dictGet?` / `dictMem`,
  which reproduce dict semantics (an insert of an existing key updates the
  entry in place, a fresh key is appended; lookup finds the unique entry).
* Python `float` values (the `weight` columns) are modelled as `Rat`.  The
  code never does arithmetic on weights — they are parsed, stored and compared
  for nothing — so no float-specific behaviour is relied upon.
* Python `int` share counts are modelled as `Int`.
* SQL `TEXT` dates compared with `<` / `MAX` are modelled as `String` with
  the lexicographic linear order (exactly the comparison SQLite/PostgreSQL
  perform on `TEXT` columns).
* The database tables `etf_holdings` and `holdings_changes` are modelled as
  lists of rows (`DBState`); the auto-increment `id` and `created_at` columns
  are bookkeeping the claims never mention and are omitted.
* The Python builtins `float(...)` and `int(...)` applied to scraped cell
  strings are external library calls; they are modelled as oracle parameters
  `pFloat : String → Option Rat` and `pInt : String → Option Int`
  (`none` = the builtin raises `ValueError`).  Everything the repository
  itself does around them (emptiness guards, comma stripping, defaulting,
  row dropping) is translated concretely.
-/

namespace EtfMonitor

/-- A row of the `etf_holdings` table / a normalized holding produced by
`parse_holdings_data` (fields as in `improved_etf_scraper_cloud.py`). -/
structure HoldingRow where
  etf_code : String
  stock_code : String
  stock_name : String
  weight : Rat
  shares : Int
  unit : String
  update_date : String
deriving DecidableEq, Repr

/-- The value stored for one instrument in the prior-holdings dict built by
`get_previous_holdings` (`{'stock_name': …, 'weight': …, 'shares': …}`). -/
structure PrevData where
  stock_name : String
  weight : Rat
  shares : Int
deriving DecidableEq, Repr

/-- The `change_type` strings emitted by `analyze_holdings_changes`. -/
inductive ChangeType where
  | NEW
  | INCREASED
  | DECREASED
  | REMOVED
deriving DecidableEq, Repr

/-- A row of the `holdings_changes` table / a change dict emitted by
`analyze_holdings_changes`. -/
structure Change where
  etf_code : String
  stock_code : String
  stock_name : String
  change_type : ChangeType
  old_shares : Int
  new_shares : Int
  old_weight : Rat
  new_weight : Rat
  change_date : String
deriving DecidableEq, Repr

/-! ### Python dict model -/

/-- Python dict assignment `d[k] = v`: an existing key keeps its position and
gets the new value, a fresh key is appended. -/
def dictInsert {α : Type} (d : List (String × α)) (k : String) (v : α) :
    List (String × α) :=
  if d.any (fun p => p.1 = k) then
    d.map (fun p => if p.1 = k then (k, v) else p)
  else
    d ++ [(k, v)]

/-- Python dict lookup `d.get(k)` / `d[k]`. -/
def dictGet? {α : Type} (d : List (String × α)) (k : String) : Option α :=
  (d.find? (fun p => p.1 = k)).map (fun p => p.2)

/-- Python dict membership `k in d`. -/
def dictMem {α : Type} (d : List (String × α)) (k : String) : Bool :=
  d.any (fun p => p.1 = k)

/-- Build a dict from a list of records, keyed by `key`, storing `val`
(last record with a given key wins), as the dict comprehension
`{h['stock_code']: h for h in current_holdings}` and the row loop in
`get_previous_holdings` both do. -/
def buildDictBy {α β : Type} (key : α → String) (val : α → β)
    (rows : List α) : List (String × β) :=
  rows.foldl (fun d r => dictInsert d (key r) (val r)) []

/-! ### Row Normalizer (`parse_holdings_data`, lines 253–299)

One raw API row after the source's `str(row[i]).strip()` step: six stripped
cell strings in the fixed column order
`[date, stock_code, stock_name, weight, shares, unit]`.  (Rows shorter than
six cells are skipped by the source before any of the logic modelled here
runs, so the model takes exactly six cells.) -/
structure RawRow where
  date_str : String
  stock_code : String
  stock_name : String
  weight_str : String
  shares_str : String
  unit : String
deriving DecidableEq, Repr

/-- The body of the row loop of `parse_holdings_data` for one raw row:
* `if not stock_code or not stock_name: continue` — the row is dropped;
* `weight = float(weight_str) if weight_str else 0.0`, with the
  `ValueError` handler defaulting to `0.0`;
* `shares = int(shares_str.replace(',', '')) if shares_str else 0`, with the
  `ValueError` handler defaulting to `0`.
`pFloat`/`pInt` are the oracles for the Python builtins (see module header);
`etf`/`d` are the fund code and the batch's `data_date`. -/
def parseRow (pFloat : String → Option Rat) (pInt : String → Option Int)
    (etf d : String) (r : RawRow) : Option HoldingRow :=
  if r.stock_code = "" ∨ r.stock_name = "" then
    none
  else
    let weight : Rat := if r.weight_str = "" then 0 else (pFloat r.weight_str).getD 0
    let shares : Int :=
      if r.shares_str = "" then 0
      else (pInt (r.shares_str.replace "," "")).getD 0
    some { etf_code := etf, stock_code := r.stock_code, stock_name := r.stock_name,
           weight := weight, shares := shares, unit := r.unit, update_date := d }

/-- The row loop of `parse_holdings_data`: each raw row is normalized or
dropped independently; a dropped row never aborts the batch. -/
def parse_holdings_data (pFloat : String → Option Rat) (pInt : String → Option Int)
    (etf d : String) (rows : List RawRow) : List HoldingRow :=
  rows.filterMap (parseRow pFloat pInt etf d)

/-! ### Snapshot Store lookup (`get_previous_holdings`, lines 309–370)

The `update_date` column is SQL `TEXT`; `<` and `MAX` on it compare strings
lexicographically.  That comparison is modelled on the character list of the
string (`String.data`) with the lexicographic order — the same relation,
stated in a kernel-computable form. -/

/-- SQL `<` on two `TEXT` date values (lexicographic). -/
def dateLt (a b : String) : Prop :=
  a.data < b.data

instance : ∀ a b : String, Decidable (dateLt a b) := fun a b =>
  inferInstanceAs (Decidable (a.data < b.data))

/-- SQL `<=` on two `TEXT` date values (lexicographic). -/
def dateLe (a b : String) : Prop :=
  a.data ≤ b.data

instance : ∀ a b : String, Decidable (dateLe a b) := fun a b =>
  inferInstanceAs (Decidable (a.data ≤ b.data))

/-- The greater of two `TEXT` date values. -/
def dateMax (a b : String) : String :=
  if dateLe a b then b else a

/-- SQL `MAX(...)` over the values of a `TEXT` column: `none` on the empty
set of rows (SQL `NULL`), otherwise the greatest value. -/
def listMax? : List String → Option String
  | [] => none
  | d :: ds =>
    match listMax? ds with
    | none => some d
    | some m => some (dateMax d m)

/-- Rows of `etf_holdings` for fund `etf` with `update_date` strictly below
`cur` (the `WHERE` clause of the first query of `get_previous_holdings`). -/
def priorRows (db : List HoldingRow) (etf cur : String) : List HoldingRow :=
  db.filter (fun r => r.etf_code = etf ∧ dateLt r.update_date cur)

/-- The query `SELECT MAX(update_date) FROM etf_holdings WHERE etf_code = ?
AND update_date < ?` — the previous trading date, if any. -/
def prevDate? (db : List HoldingRow) (etf cur : String) : Option String :=
  listMax? ((priorRows db etf cur).map (fun r => r.update_date))

/-- The query `SELECT … FROM etf_holdings WHERE etf_code = ? AND
update_date = ?`. -/
def rowsOn (db : List HoldingRow) (etf d : String) : List HoldingRow :=
  db.filter (fun r => r.etf_code = etf ∧ r.update_date = d)

/-- The function `get_previous_holdings(etf_code, current_date)`: find the greatest stored
date strictly before `current_date` for the fund; if none, return the empty
dict (the `if not result or not result.get('prev_date'): return {}` branch);
otherwise build the dict `stock_code ↦ {stock_name, weight, shares}` from
that day's rows. -/
def get_previous_holdings (db : List HoldingRow) (etf cur : String) :
    List (String × PrevData) :=
  match prevDate? db etf cur with
  | none => []
  | some pd =>
      buildDictBy (fun r => r.stock_code)
        (fun r => { stock_name := r.stock_name, weight := r.weight,
                    shares := r.shares : PrevData })
        (rowsOn db etf pd)

/-- The function `get_previous_holdings` with its surrounding `try/except`: the whole body
is wrapped in a handler that logs and returns `{}` on any storage-layer
exception, so a failing query never aborts the run.  The storage access is
modelled as an `Except` oracle: `Except.error e` means the underlying query
raised `e`. -/
def get_previous_holdings_guarded (q : Except String (List HoldingRow))
    (etf cur : String) : List (String × PrevData) :=
  match q with
  | Except.error _ => []
  | Except.ok db => get_previous_holdings db etf cur

/-! ### Change Detector (`analyze_holdings_changes`, lines 372–461) -/

/-- The NEW change record emitted for a current holding absent from prior. -/
def newChange (etf d : String) (h : HoldingRow) : Change :=
  { etf_code := etf, stock_code := h.stock_code, stock_name := h.stock_name,
    change_type := ChangeType.NEW, old_shares := 0, new_shares := h.shares,
    old_weight := 0, new_weight := h.weight, change_date := d }

/-- The INCREASED change record. -/
def increasedChange (etf d : String) (old : PrevData) (h : HoldingRow) : Change :=
  { etf_code := etf, stock_code := h.stock_code, stock_name := h.stock_name,
    change_type := ChangeType.INCREASED, old_shares := old.shares,
    new_shares := h.shares, old_weight := old.weight, new_weight := h.weight,
    change_date := d }

/-- The DECREASED change record. -/
def decreasedChange (etf d : String) (old : PrevData) (h : HoldingRow) : Change :=
  { etf_code := etf, stock_code := h.stock_code, stock_name := h.stock_name,
    change_type := ChangeType.DECREASED, old_shares := old.shares,
    new_shares := h.shares, old_weight := old.weight, new_weight := h.weight,
    change_date := d }

/-- The REMOVED change record emitted for a prior entry absent from current. -/
def removedChange (etf d : String) (q : String × PrevData) : Change :=
  { etf_code := etf, stock_code := q.1, stock_name := q.2.stock_name,
    change_type := ChangeType.REMOVED, old_shares := q.2.shares,
    new_shares := 0, old_weight := q.2.weight, new_weight := 0,
    change_date := d }

/-- The dict comprehension building `current_dict`: each current holding
keyed by its stock_code (a later duplicate code would win). -/
def buildCurrentDict (rows : List HoldingRow) : List (String × HoldingRow) :=
  buildDictBy (fun h => h.stock_code) (fun h => h) rows

/-- The body of the first loop of `analyze_holdings_changes` for one entry
`(stock_code, current_data)` of `current_dict`:
absent from prior → NEW; shares strictly greater → INCREASED; strictly
smaller → DECREASED; equal shares → nothing (even if the weight differs). -/
def classifyEntry (etf d : String) (previous : List (String × PrevData))
    (p : String × HoldingRow) : List Change :=
  match dictGet? previous p.1 with
  | none =>
      [{ etf_code := etf, stock_code := p.1, stock_name := p.2.stock_name,
         change_type := ChangeType.NEW, old_shares := 0,
         new_shares := p.2.shares, old_weight := 0, new_weight := p.2.weight,
         change_date := d }]
  | some old =>
      if old.shares < p.2.shares then
        [{ etf_code := etf, stock_code := p.1, stock_name := p.2.stock_name,
           change_type := ChangeType.INCREASED, old_shares := old.shares,
           new_shares := p.2.shares, old_weight := old.weight,
           new_weight := p.2.weight, change_date := d }]
      else if p.2.shares < old.shares then
        [{ etf_code := etf, stock_code := p.1, stock_name := p.2.stock_name,
           change_type := ChangeType.DECREASED, old_shares := old.shares,
           new_shares := p.2.shares, old_weight := old.weight,
           new_weight := p.2.weight, change_date := d }]
      else
        []

/-- The diff core of `analyze_holdings_changes`, with the prior-holdings dict
as an explicit argument: the first loop walks `current_dict` emitting
NEW/INCREASED/DECREASED, the second walks `previous_holdings` emitting
REMOVED for codes not in `current_dict`. -/
def detectChanges (etf d : String) (current : List HoldingRow)
    (previous : List (String × PrevData)) : List Change :=
  (buildCurrentDict current).flatMap (classifyEntry etf d previous) ++
    (previous.filter (fun q => ! dictMem (buildCurrentDict current) q.1)).map
      (removedChange etf d)

/-- The function `analyze_holdings_changes(etf_code, current_holdings, current_date)`:
fetch the prior snapshot from the store, then diff. -/
def analyze_holdings_changes (db : List HoldingRow) (etf : String)
    (current : List HoldingRow) (d : String) : List Change :=
  detectChanges etf d current (get_previous_holdings db etf d)

/-- The change records of a list that concern one instrument code. -/
def changesFor (cs : List Change) (c : String) : List Change :=
  cs.filter (fun ch => ch.stock_code = c)

/-! ### Reconciliation Transaction (`save_to_database`, lines 463–557)

The two tables, as committed database state.  All statements between
`conn.autocommit = False` and `conn.commit()` act on an uncommitted pending
state; only `conn.commit()` publishes it, and `conn.rollback()` (run by the
`except` branch) discards it, leaving the committed state untouched. -/
structure DBState where
  holdings : List HoldingRow
  changes : List Change
deriving DecidableEq, Repr

/-- The statement `DELETE FROM etf_holdings WHERE etf_code = ? AND
update_date = ?`. -/
def deleteHoldingsDay (s : DBState) (etf d : String) : DBState :=
  { s with holdings :=
      s.holdings.filter (fun r => ¬ (r.etf_code = etf ∧ r.update_date = d)) }

/-- The statement `DELETE FROM holdings_changes WHERE etf_code = ? AND
change_date = ?`. -/
def deleteChangesDay (s : DBState) (etf d : String) : DBState :=
  { s with changes :=
      s.changes.filter (fun c => ¬ (c.etf_code = etf ∧ c.change_date = d)) }

/-- The `INSERT INTO etf_holdings …` loop (one row appended per holding). -/
def insertHoldings (s : DBState) (hs : List HoldingRow) : DBState :=
  { s with holdings := s.holdings ++ hs }

/-- The `INSERT INTO holdings_changes …` loop.  (The source guards it with
`if changes:`, but inserting an empty list is the same no-op.) -/
def insertChanges (s : DBState) (cs : List Change) : DBState :=
  { s with changes := s.changes ++ cs }

/-- The transaction body of `save_to_database` in source order: delete the
day's old holdings, delete the day's old changes, insert the new holdings,
insert the new changes. -/
def txBody (s : DBState) (etf d : String) (hs : List HoldingRow)
    (cs : List Change) : DBState :=
  insertChanges (insertHoldings (deleteChangesDay (deleteHoldingsDay s etf d) etf d) hs) cs

/-- The function `save_to_database(holdings, changes)` on the SQLite backend (no unique
index): empty batch → `return False` before any database work; otherwise run
the transaction body keyed by the first row's `etf_code`/`update_date` and
commit, returning `True`. -/
def save_to_database (s : DBState) (hs : List HoldingRow) (cs : List Change) :
    DBState × Bool :=
  match hs with
  | [] => (s, false)
  | h0 :: _ => (txBody s h0.etf_code h0.update_date hs cs, true)

/-- The rollback `conn.rollback()`: the pending (uncommitted) state is discarded and the
committed state is what remains visible. -/
def rollbackTo (committed _pending : DBState) : DBState :=
  committed

/-- Points at which a storage failure can be injected into the transaction
body of `save_to_database` (an exception raised by the corresponding
`cursor.execute` batch). -/
inductive FaultPoint where
  | noFault
  | beforeDeletes
  | afterDeletes
  | afterHoldings
  | afterChanges
deriving DecidableEq, Repr

/-- The function `save_to_database` with a fault injected at `fp`.  Execution walks the
statements in source order building the pending state; if the injected
exception fires, the `except` branch runs `conn.rollback()` (discarding the
pending state) and the outer handler returns `False`; otherwise
`conn.commit()` publishes the pending state and the function returns
`True`. -/
def save_to_database_faulty (fp : FaultPoint) (s : DBState)
    (hs : List HoldingRow) (cs : List Change) : DBState × Bool :=
  match hs with
  | [] => (s, false)
  | h0 :: _ =>
    let etf := h0.etf_code
    let d := h0.update_date
    if fp = FaultPoint.beforeDeletes then (rollbackTo s s, false) else
    let p1 := deleteChangesDay (deleteHoldingsDay s etf d) etf d
    if fp = FaultPoint.afterDeletes then (rollbackTo s p1, false) else
    let p2 := insertHoldings p1 hs
    if fp = FaultPoint.afterHoldings then (rollbackTo s p2, false) else
    let p3 := insertChanges p2 cs
    if fp = FaultPoint.afterChanges then (rollbackTo s p3, false) else
    (p3, true)

/-- Two holdings rows collide on the key of the PostgreSQL unique index
`idx_unique_holding ON etf_holdings(etf_code, stock_code, update_date)`. -/
def sameKey (a b : HoldingRow) : Prop :=
  a.etf_code = b.etf_code ∧ a.stock_code = b.stock_code ∧
    a.update_date = b.update_date

instance : DecidableRel sameKey := fun a b =>
  inferInstanceAs (Decidable (a.etf_code = b.etf_code ∧ a.stock_code = b.stock_code ∧
    a.update_date = b.update_date))

/-- The stored holdings are unique on (etf_code, stock_code, update_date). -/
def UniqueKeys (l : List HoldingRow) : Prop :=
  l.Pairwise (fun a b => ¬ sameKey a b)

instance (l : List HoldingRow) : Decidable (UniqueKeys l) :=
  inferInstanceAs (Decidable (l.Pairwise _))

/-- One `INSERT INTO etf_holdings` on the PostgreSQL backend: the unique
index rejects a row colliding with a stored one (the statement raises). -/
def pgInsertHoldingRow (s : DBState) (h : HoldingRow) : Except Unit DBState :=
  if s.holdings.any (fun r => sameKey r h) then
    Except.error ()
  else
    Except.ok { s with holdings := s.holdings ++ [h] }

/-- The transaction body on the PostgreSQL backend: as `txBody`, but each
holdings insert can fail on the unique index. -/
def pgTxBody (s : DBState) (etf d : String) (hs : List HoldingRow)
    (cs : List Change) : Except Unit DBState :=
  match hs.foldlM pgInsertHoldingRow
      (deleteChangesDay (deleteHoldingsDay s etf d) etf d) with
  | Except.error e => Except.error e
  | Except.ok s2 => Except.ok (insertChanges s2 cs)

/-- The function `save_to_database` on the PostgreSQL backend: a raised unique-index
violation triggers `conn.rollback()` and the outer handler returns `False`;
otherwise the body commits. -/
def save_to_database_pg (s : DBState) (hs : List HoldingRow)
    (cs : List Change) : DBState × Bool :=
  match hs with
  | [] => (s, false)
  | h0 :: _ =>
    match pgTxBody s h0.etf_code h0.update_date hs cs with
    | Except.error _ => (s, false)
    | Except.ok s2 => (s2, true)

/-! ### Cross-fund view (`fastapi_app.py`, `get_cross_etf_holdings`) -/

/-- One row of the first query's result: `stock_code, stock_name,
COUNT(DISTINCT etf_code) as etf_count, SUM(shares) as total_shares`. -/
structure CrossRow where
  stock_code : String
  stock_name : String
  etf_count : Nat
  total_shares : Int
deriving DecidableEq, Repr

/-- The filter `WHERE update_date = ?`. -/
def rowsAtDate (db : List HoldingRow) (d : String) : List HoldingRow :=
  db.filter (fun r => r.update_date = d)

/-- The rows of one `GROUP BY stock_code, stock_name` group. -/
def groupRows (db : List HoldingRow) (d code name : String) : List HoldingRow :=
  (rowsAtDate db d).filter (fun r => r.stock_code = code ∧ r.stock_name = name)

/-- The aggregate `COUNT(DISTINCT etf_code)` within a group. -/
def distinctEtfCount (db : List HoldingRow) (d code name : String) : Nat :=
  ((groupRows db d code name).map (fun r => r.etf_code)).dedup.length

/-- The aggregate `SUM(shares)` within a group. -/
def sumShares (db : List HoldingRow) (d code name : String) : Int :=
  ((groupRows db d code name).map (fun r => r.shares)).sum

/-- The first query of `get_cross_etf_holdings`: group the date's rows by
`(stock_code, stock_name)`, keep groups held by at least two distinct funds
(`HAVING COUNT(DISTINCT etf_code) >= 2`), report the distinct-fund count and
share sum, `ORDER BY total_shares DESC`.  (The per-ETF detail lists the
route then attaches carry these four fields through unchanged and are not
part of the claims.) -/
def crossQueryRows (db : List HoldingRow) (d : String) : List CrossRow :=
  (((rowsAtDate db d).map (fun r => (r.stock_code, r.stock_name))).dedup.filter
      (fun k => 2 ≤ distinctEtfCount db d k.1 k.2)).map
    (fun k => { stock_code := k.1, stock_name := k.2,
                etf_count := distinctEtfCount db d k.1 k.2,
                total_shares := sumShares db d k.1 k.2 : CrossRow })

def get_cross_etf_holdings (db : List HoldingRow) (d : String) : List CrossRow :=
  (crossQueryRows db d).mergeSort (fun a b => b.total_shares ≤ a.total_shares)

/-- Spec-side notion for the cross-fund claim: the number of distinct funds
holding an instrument *code* on a date, regardless of the stored
`stock_name`.  (The source groups by the pair `(stock_code, stock_name)`;
this definition follows the claim's words for comparison.) -/
def specFundCountByCode (db : List HoldingRow) (d code : String) : Nat :=
  (((rowsAtDate db d).filter (fun r => r.stock_code = code)).map
      (fun r => r.etf_code)).dedup.length

/-! ### Concrete example data (spec §8 scenario and variants), used by
witnesses and counterexamples -/

def exPrevAAA : PrevData :=
  { stock_name := "Alpha", weight := 1, shares := 100 }

def exPrevBBB : PrevData :=
  { stock_name := "Beta", weight := 2, shares := 50 }

def exPrior : List (String × PrevData) :=
  [("AAA", exPrevAAA), ("BBB", exPrevBBB)]

def exRowAAA : HoldingRow :=
  { etf_code := "F1", stock_code := "AAA", stock_name := "Alpha", weight := 3,
    shares := 150, unit := "shares", update_date := "2024-01-02" }

def exRowCCC : HoldingRow :=
  { etf_code := "F1", stock_code := "CCC", stock_name := "Gamma", weight := 1,
    shares := 10, unit := "shares", update_date := "2024-01-02" }

def exCurrent : List HoldingRow := [exRowAAA, exRowCCC]

def exRowZero : HoldingRow :=
  { etf_code := "F1", stock_code := "ZZZ", stock_name := "Zed", weight := 0,
    shares := 0, unit := "shares", update_date := "2024-01-02" }

def exRow6A : HoldingRow :=
  { etf_code := "F1", stock_code := "AAA", stock_name := "Alpha", weight := 1,
    shares := 100, unit := "shares", update_date := "2024-01-01" }

def exRow6B : HoldingRow :=
  { etf_code := "F1", stock_code := "BBB", stock_name := "Beta", weight := 2,
    shares := 50, unit := "shares", update_date := "2024-01-01" }

def exRow6Old : HoldingRow :=
  { etf_code := "F1", stock_code := "AAA", stock_name := "Alpha", weight := 1,
    shares := 90, unit := "shares", update_date := "2023-12-31" }

def exRow6F2 : HoldingRow :=
  { etf_code := "F2", stock_code := "AAA", stock_name := "Alpha", weight := 1,
    shares := 7, unit := "shares", update_date := "2024-01-01" }

def exDB6 : List HoldingRow := [exRow6A, exRow6B, exRow6Old, exRow6F2]

def exChangeNew : Change := newChange "F1" "2024-01-02" exRowCCC

def exState : DBState := { holdings := exDB6, changes := [] }

def exDupA : HoldingRow :=
  { etf_code := "F1", stock_code := "AAA", stock_name := "Alpha", weight := 1,
    shares := 100, unit := "shares", update_date := "2024-01-02" }

def exDupB : HoldingRow :=
  { etf_code := "F1", stock_code := "AAA", stock_name := "AlphaBis", weight := 2,
    shares := 40, unit := "shares", update_date := "2024-01-02" }

def exCross1 : HoldingRow :=
  { etf_code := "FA", stock_code := "2330", stock_name := "TSMC", weight := 1,
    shares := 100, unit := "shares", update_date := "2024-01-02" }

def exCross2 : HoldingRow :=
  { etf_code := "FB", stock_code := "2330", stock_name := "TSMC", weight := 2,
    shares := 200, unit := "shares", update_date := "2024-01-02" }

def exCross2named : HoldingRow :=
  { etf_code := "FB", stock_code := "2330", stock_name := "TaiwanSemi",
    weight := 2, shares := 200, unit := "shares", update_date := "2024-01-02" }

def exDBCross : List HoldingRow := [exCross1, exCross2]

def exDBCrossNames : List HoldingRow := [exCross1, exCross2named]

/-! ### Dict lemmas -/

theorem dictInsert_of_not_mem {α : Type} {d : List (String × α)} {k : String}
    (v : α) (hk : ∀ p ∈ d, p.1 ≠ k) : dictInsert d k v = d ++ [(k, v)] := by
  have : d.any (fun p => p.1 = k) = false := by
    simp only [List.any_eq_false, decide_eq_true_eq]
    exact hk
  simp [dictInsert, this]

theorem mem_of_mem_dictInsert {α : Type} {d : List (String × α)} {k : String}
    {v : α} {p : String × α} (hp : p ∈ dictInsert d k v) :
    p ∈ d ∨ p = (k, v) := by
  unfold dictInsert at hp
  split at hp
  · simp only [List.mem_map] at hp
    obtain ⟨q, hq, hq2⟩ := hp
    by_cases hqk : q.1 = k
    · rw [if_pos hqk] at hq2
      exact Or.inr hq2.symm
    · rw [if_neg hqk] at hq2
      exact Or.inl (hq2 ▸ hq)
  · simp only [List.mem_append, List.mem_singleton] at hp
    exact hp

theorem mem_keys_dictInsert {α : Type} {d : List (String × α)} {k : String}
    {v : α} {c : String} :
    c ∈ (dictInsert d k v).map Prod.fst ↔ c ∈ d.map Prod.fst ∨ c = k := by
  unfold dictInsert
  split
  · next hany =>
    simp only [List.map_map, List.mem_map, Function.comp]
    constructor
    · rintro ⟨q, hq, hq2⟩
      by_cases hqk : q.1 = k
      · rw [if_pos hqk] at hq2
        exact Or.inr hq2.symm
      · rw [if_neg hqk] at hq2
        exact Or.inl ⟨q, hq, hq2⟩
    · rintro (⟨q, hq, hq2⟩ | rfl)
      · refine ⟨q, hq, ?_⟩
        by_cases hqk : q.1 = k
        · rw [if_pos hqk]
          show k = c
          rw [← hqk]
          exact hq2
        · rw [if_neg hqk]
          exact hq2
      · simp only [List.any_eq_true, decide_eq_true_eq] at hany
        obtain ⟨q, hq, hqk⟩ := hany
        exact ⟨q, hq, by rw [if_pos hqk]⟩
  · simp

theorem buildDictBy_aux {α β : Type} (key : α → String) (val : α → β) :
    ∀ (rows : List α) (acc : List (String × β)),
      (acc.map Prod.fst ++ rows.map key).Nodup →
      rows.foldl (fun d r => dictInsert d (key r) (val r)) acc =
        acc ++ rows.map (fun r => (key r, val r)) := by
  intro rows
  induction rows with
  | nil => intro acc _; simp
  | cons r t ih =>
    intro acc h
    have hk : (key r) ∉ acc.map Prod.fst := by
      rw [List.nodup_append] at h
      intro hmem
      exact h.2.2 hmem (by simp)
    have hins : dictInsert acc (key r) (val r) = acc ++ [(key r, val r)] :=
      dictInsert_of_not_mem _ (by
        intro p hp hpk
        exact hk (hpk ▸ List.mem_map_of_mem Prod.fst hp))
    have hkeysEq : ((acc ++ [(key r, val r)]).map Prod.fst ++ t.map key) =
        acc.map Prod.fst ++ (r :: t).map key := by
      simp
    have h2 : ((acc ++ [(key r, val r)]).map Prod.fst ++ t.map key).Nodup := by
      rw [hkeysEq]; exact h
    calc (r :: t).foldl (fun d x => dictInsert d (key x) (val x)) acc
        = t.foldl (fun d x => dictInsert d (key x) (val x)) (acc ++ [(key r, val r)]) := by
          simp [hins]
      _ = (acc ++ [(key r, val r)]) ++ t.map (fun x => (key x, val x)) := ih _ h2
      _ = acc ++ (r :: t).map (fun x => (key x, val x)) := by simp

/-- With pairwise-distinct keys, the dict built from a record list is its
association list in order. -/
theorem buildDictBy_eq_map {α β : Type} (key : α → String) (val : α → β)
    {rows : List α} (h : (rows.map key).Nodup) :
    buildDictBy key val rows = rows.map (fun r => (key r, val r)) := by
  have := buildDictBy_aux key val rows [] (by simpa using h)
  simpa [buildDictBy] using this

theorem mem_foldl_dictInsert {α β : Type} (key : α → String) (val : α → β) :
    ∀ (rows : List α) (acc : List (String × β)) (p : String × β),
      p ∈ rows.foldl (fun d r => dictInsert d (key r) (val r)) acc →
      p ∈ acc ∨ ∃ r ∈ rows, p = (key r, val r) := by
  intro rows
  induction rows with
  | nil => intro acc p hp; exact Or.inl (by simpa using hp)
  | cons r t ih =>
    intro acc p hp
    simp only [List.foldl_cons] at hp
    rcases ih _ p hp with hacc | ⟨r2, hr2, hpr2⟩
    · rcases mem_of_mem_dictInsert hacc with h | h
      · exact Or.inl h
      · exact Or.inr ⟨r, List.mem_cons_self r t, h⟩
    · exact Or.inr ⟨r2, List.mem_cons_of_mem r hr2, hpr2⟩

/-- Every entry of a built dict comes from one of the records. -/
theorem mem_buildDictBy {α β : Type} {key : α → String} {val : α → β}
    {rows : List α} {p : String × β} (hp : p ∈ buildDictBy key val rows) :
    ∃ r ∈ rows, p = (key r, val r) := by
  rcases mem_foldl_dictInsert key val rows [] p hp with h | h
  · simp at h
  · exact h

theorem dictMem_iff {α : Type} {d : List (String × α)} {c : String} :
    dictMem d c = true ↔ c ∈ d.map Prod.fst := by
  simp only [dictMem, List.any_eq_true, decide_eq_true_eq, List.mem_map]

theorem dictGet?_nil {α : Type} (k : String) :
    dictGet? ([] : List (String × α)) k = none := rfl

/-- Lookup in the association list of a record list with pairwise-distinct
keys retrieves the record's value. -/
theorem dictGet?_map_self {α β : Type} (key : α → String) (val : α → β) :
    ∀ {rows : List α}, (rows.map key).Nodup → ∀ {r : α}, r ∈ rows →
      dictGet? (rows.map (fun x => (key x, val x))) (key r) = some (val r) := by
  intro rows
  induction rows with
  | nil => intro _ r hr; simp at hr
  | cons a t ih =>
    intro hnd r hr
    have hnd2 : (t.map key).Nodup := (List.nodup_cons.mp (by simpa using hnd)).2
    rcases List.mem_cons.mp hr with rfl | hrt
    · simp [dictGet?]
    · have hne : ¬ (key a = key r) := by
        intro heq
        have : key a ∈ t.map key := heq ▸ List.mem_map_of_mem key hrt
        exact (List.nodup_cons.mp (by simpa using hnd)).1 this
      have hstep : dictGet? ((a :: t).map (fun x => (key x, val x))) (key r) =
          dictGet? (t.map (fun x => (key x, val x))) (key r) := by
        simp [dictGet?, List.find?_cons_of_neg, hne]
      rw [hstep]
      exact ih hnd2 hrt

theorem filter_key_nil {β : Type} {l : List (String × β)} {c : String}
    (h : ∀ q ∈ l, q.1 ≠ c) : l.filter (fun q => q.1 = c) = [] :=
  List.filter_eq_nil_iff.mpr (by simpa using h)

/-- In an association list with pairwise-distinct keys, filtering down to one
key keeps exactly the entry with that key. -/
theorem filter_key_of_nodup {β : Type} :
    ∀ {prev : List (String × β)}, (prev.map Prod.fst).Nodup →
      ∀ {c : String} {x : β}, (c, x) ∈ prev →
        prev.filter (fun q => q.1 = c) = [(c, x)] := by
  intro prev
  induction prev with
  | nil => intro _ c x hmem; simp at hmem
  | cons p t ih =>
    intro hnd c x hmem
    have hnd2 : (t.map Prod.fst).Nodup := (List.nodup_cons.mp (by simpa using hnd)).2
    have hhead : p.1 ∉ t.map Prod.fst := (List.nodup_cons.mp (by simpa using hnd)).1
    rcases List.mem_cons.mp hmem with rfl | hmemt
    · have htail : t.filter (fun q => q.1 = c) = [] := by
        apply filter_key_nil
        intro q hq hqc
        exact hhead (by simpa [← hqc] using List.mem_map_of_mem Prod.fst hq)
      simp [List.filter_cons, htail]
    · have hne : ¬ (p.1 = c) := by
        intro heq
        have : (c, x).1 ∈ t.map Prod.fst := List.mem_map_of_mem Prod.fst hmemt
        exact hhead (heq ▸ this)
      rw [List.filter_cons_of_neg (by simpa using hne)]
      exact ih hnd2 hmemt

/-! ### changesFor lemmas -/

theorem changesFor_append (l1 l2 : List Change) (c : String) :
    changesFor (l1 ++ l2) c = changesFor l1 c ++ changesFor l2 c :=
  List.filter_append _ _

theorem changesFor_eq_self {l : List Change} {c : String}
    (h : ∀ ch ∈ l, ch.stock_code = c) : changesFor l c = l :=
  List.filter_eq_self.mpr (by simpa using h)

theorem changesFor_eq_nil {l : List Change} {c : String}
    (h : ∀ ch ∈ l, ch.stock_code ≠ c) : changesFor l c = [] :=
  List.filter_eq_nil_iff.mpr (by simpa using h)

/-! ### Change Detector lemmas -/

theorem classifyEntry_eq_of_none (etf d : String)
    {previous : List (String × PrevData)} {p : String × HoldingRow}
    (h : dictGet? previous p.1 = none) :
    classifyEntry etf d previous p =
      [{ etf_code := etf, stock_code := p.1, stock_name := p.2.stock_name,
         change_type := ChangeType.NEW, old_shares := 0,
         new_shares := p.2.shares, old_weight := 0, new_weight := p.2.weight,
         change_date := d }] := by
  unfold classifyEntry
  rw [h]

theorem classifyEntry_eq_of_some (etf d : String)
    {previous : List (String × PrevData)} {p : String × HoldingRow}
    {old : PrevData} (h : dictGet? previous p.1 = some old) :
    classifyEntry etf d previous p =
      (if old.shares < p.2.shares then
        [{ etf_code := etf, stock_code := p.1, stock_name := p.2.stock_name,
           change_type := ChangeType.INCREASED, old_shares := old.shares,
           new_shares := p.2.shares, old_weight := old.weight,
           new_weight := p.2.weight, change_date := d }]
      else if p.2.shares < old.shares then
        [{ etf_code := etf, stock_code := p.1, stock_name := p.2.stock_name,
           change_type := ChangeType.DECREASED, old_shares := old.shares,
           new_shares := p.2.shares, old_weight := old.weight,
           new_weight := p.2.weight, change_date := d }]
      else []) := by
  unfold classifyEntry
  rw [h]

/-- Every change emitted for a dict entry carries the entry's key as its
instrument code. -/
theorem classifyEntry_code (etf d : String)
    (previous : List (String × PrevData)) (p : String × HoldingRow) :
    ∀ ch ∈ classifyEntry etf d previous p, ch.stock_code = p.1 := by
  intro ch hch
  unfold classifyEntry at hch
  split at hch
  · rw [List.mem_singleton] at hch
    rw [hch]
  · split at hch
    · rw [List.mem_singleton] at hch
      rw [hch]
    · split at hch
      · rw [List.mem_singleton] at hch
        rw [hch]
      · simp at hch

theorem changesFor_flatMap_of_forall_ne
    {f : String × HoldingRow → List Change}
    (hf : ∀ p ch, ch ∈ f p → ch.stock_code = p.1)
    {D : List (String × HoldingRow)} {c : String}
    (h : ∀ q ∈ D, q.1 ≠ c) : changesFor (D.flatMap f) c = [] := by
  apply changesFor_eq_nil
  intro ch hch
  rw [List.mem_flatMap] at hch
  obtain ⟨q, hq, hchq⟩ := hch
  rw [hf q ch hchq]
  exact h q hq

/-- With pairwise-distinct dict keys, restricting the first loop's output to
one key isolates exactly that entry's records. -/
theorem changesFor_flatMap_of_mem
    {f : String × HoldingRow → List Change}
    (hf : ∀ p ch, ch ∈ f p → ch.stock_code = p.1) :
    ∀ {D : List (String × HoldingRow)}, (D.map Prod.fst).Nodup →
      ∀ {c : String} {x : HoldingRow}, (c, x) ∈ D →
        changesFor (D.flatMap f) c = f (c, x) := by
  intro D
  induction D with
  | nil => intro _ c x hmem; simp at hmem
  | cons p t ih =>
    intro hnd c x hmem
    have hnd2 : (t.map Prod.fst).Nodup := (List.nodup_cons.mp (by simpa using hnd)).2
    have hhead : p.1 ∉ t.map Prod.fst := (List.nodup_cons.mp (by simpa using hnd)).1
    rw [List.flatMap_cons, changesFor_append]
    rcases List.mem_cons.mp hmem with rfl | hmemt
    · have h1 : changesFor (f (c, x)) c = f (c, x) :=
        changesFor_eq_self (fun ch hch => hf _ ch hch)
      have h2 : changesFor (t.flatMap f) c = [] := by
        apply changesFor_flatMap_of_forall_ne hf
        intro q hq hqc
        exact hhead (by simpa [← hqc] using List.mem_map_of_mem Prod.fst hq)
      rw [h1, h2, List.append_nil]
    · have h1 : changesFor (f p) c = [] := by
        apply changesFor_eq_nil
        intro ch hch
        rw [hf p ch hch]
        intro heq
        have : (c, x).1 ∈ t.map Prod.fst := List.mem_map_of_mem Prod.fst hmemt
        exact hhead (heq ▸ this)
      rw [h1, List.nil_append]
      exact ih hnd2 hmemt

theorem changesFor_map_removed (etf d : String)
    (l : List (String × PrevData)) (c : String) :
    changesFor (l.map (removedChange etf d)) c =
      (l.filter (fun q => q.1 = c)).map (removedChange etf d) := by
  unfold changesFor
  rw [List.filter_map]
  congr 1

/-- The instrument codes occurring in `current_dict` are instrument codes of
current rows. -/
theorem dictMem_buildCurrentDict_eq_false {current : List HoldingRow}
    {c : String} (habs : ∀ h ∈ current, h.stock_code ≠ c) :
    dictMem (buildCurrentDict current) c = false := by
  cases hdm : dictMem (buildCurrentDict current) c with
  | false => rfl
  | true =>
    obtain ⟨q, hq, hqc⟩ := List.mem_map.mp (dictMem_iff.mp hdm)
    obtain ⟨r, hr, hqr⟩ := mem_buildDictBy hq
    have hrc : r.stock_code = c := by
      rw [hqr] at hqc
      exact hqc
    exact ((habs r hr) hrc).elim

/-- If a current holding's code is absent from the prior dict, the detector's
output for that code is exactly one NEW record with `old = 0`. -/
theorem detect_changesFor_of_not_prior (etf d : String)
    {previous : List (String × PrevData)} {current : List HoldingRow}
    (hc : (current.map (fun x => x.stock_code)).Nodup)
    {h : HoldingRow} (hmem : h ∈ current)
    (hnone : dictGet? previous h.stock_code = none) :
    changesFor (detectChanges etf d current previous) h.stock_code =
      [newChange etf d h] := by
  have hD : buildCurrentDict current = current.map (fun x => (x.stock_code, x)) :=
    buildDictBy_eq_map _ _ hc
  have hkeys : ((current.map (fun x => (x.stock_code, x))).map Prod.fst).Nodup := by
    simpa [List.map_map, Function.comp] using hc
  have hmemD : (h.stock_code, h) ∈ current.map (fun x => (x.stock_code, x)) :=
    List.mem_map_of_mem _ hmem
  unfold detectChanges
  rw [hD, changesFor_append]
  rw [changesFor_flatMap_of_mem
    (fun p ch hch => classifyEntry_code etf d previous p ch hch) hkeys hmemD]
  rw [@classifyEntry_eq_of_none etf d previous (h.stock_code, h) hnone]
  have hrem : changesFor ((previous.filter
      (fun q => ! dictMem (current.map (fun x => (x.stock_code, x))) q.1)).map
        (removedChange etf d)) h.stock_code = [] := by
    apply changesFor_eq_nil
    intro ch hch
    obtain ⟨q, hq, rfl⟩ := List.mem_map.mp hch
    obtain ⟨hqprev, hqb⟩ := List.mem_filter.mp hq
    intro heq
    have hqc : q.1 = h.stock_code := heq
    have hmemK : h.stock_code ∈
        (current.map (fun x => (x.stock_code, x))).map Prod.fst :=
      List.mem_map_of_mem Prod.fst hmemD
    have hdm : dictMem (current.map (fun x => (x.stock_code, x))) q.1 = true := by
      rw [hqc]
      exact dictMem_iff.mpr hmemK
    rw [hdm] at hqb
    simp at hqb
  rw [hrem, List.append_nil]
  rfl

/-- If a current holding's code is present in the prior dict, the detector's
output for that code is exactly one INCREASED (strictly greater), exactly one
DECREASED (strictly smaller), or nothing (equal quantity — regardless of the
weights). -/
theorem detect_changesFor_of_prior (etf d : String)
    {previous : List (String × PrevData)} {current : List HoldingRow}
    (hc : (current.map (fun x => x.stock_code)).Nodup)
    {h : HoldingRow} (hmem : h ∈ current) {old : PrevData}
    (hsome : dictGet? previous h.stock_code = some old) :
    changesFor (detectChanges etf d current previous) h.stock_code =
      (if old.shares < h.shares then [increasedChange etf d old h]
       else if h.shares < old.shares then [decreasedChange etf d old h]
       else []) := by
  have hD : buildCurrentDict current = current.map (fun x => (x.stock_code, x)) :=
    buildDictBy_eq_map _ _ hc
  have hkeys : ((current.map (fun x => (x.stock_code, x))).map Prod.fst).Nodup := by
    simpa [List.map_map, Function.comp] using hc
  have hmemD : (h.stock_code, h) ∈ current.map (fun x => (x.stock_code, x)) :=
    List.mem_map_of_mem _ hmem
  unfold detectChanges
  rw [hD, changesFor_append]
  rw [changesFor_flatMap_of_mem
    (fun p ch hch => classifyEntry_code etf d previous p ch hch) hkeys hmemD]
  rw [@classifyEntry_eq_of_some etf d previous (h.stock_code, h) old hsome]
  have hrem : changesFor ((previous.filter
      (fun q => ! dictMem (current.map (fun x => (x.stock_code, x))) q.1)).map
        (removedChange etf d)) h.stock_code = [] := by
    apply changesFor_eq_nil
    intro ch hch
    obtain ⟨q, hq, rfl⟩ := List.mem_map.mp hch
    obtain ⟨hqprev, hqb⟩ := List.mem_filter.mp hq
    intro heq
    have hqc : q.1 = h.stock_code := heq
    have hmemK : h.stock_code ∈
        (current.map (fun x => (x.stock_code, x))).map Prod.fst :=
      List.mem_map_of_mem Prod.fst hmemD
    have hdm : dictMem (current.map (fun x => (x.stock_code, x))) q.1 = true := by
      rw [hqc]
      exact dictMem_iff.mpr hmemK
    rw [hdm] at hqb
    simp at hqb
  rw [hrem, List.append_nil]
  rfl

/-- If a prior instrument's code is absent from every current row, the
detector's output for that code is exactly one REMOVED record with
`new = 0`. -/
theorem detect_changesFor_removed (etf d : String)
    {previous : List (String × PrevData)} {current : List HoldingRow}
    (hp : (previous.map Prod.fst).Nodup)
    {c : String} {x : PrevData} (hmem : (c, x) ∈ previous)
    (habs : ∀ h ∈ current, h.stock_code ≠ c) :
    changesFor (detectChanges etf d current previous) c =
      [removedChange etf d (c, x)] := by
  unfold detectChanges
  rw [changesFor_append]
  have h1 : changesFor ((buildCurrentDict current).flatMap
      (classifyEntry etf d previous)) c = [] := by
    apply changesFor_flatMap_of_forall_ne
      (fun p ch hch => classifyEntry_code etf d previous p ch hch)
    intro q hq
    obtain ⟨r, hr, hqr⟩ := mem_buildDictBy hq
    rw [hqr]
    exact habs r hr
  have hmemDict : dictMem (buildCurrentDict current) c = false :=
    dictMem_buildCurrentDict_eq_false habs
  have hsubnd : ((previous.filter
      (fun q => ! dictMem (buildCurrentDict current) q.1)).map Prod.fst).Nodup :=
    List.Nodup.sublist (List.Sublist.map Prod.fst (List.filter_sublist previous)) hp
  have hmemF : (c, x) ∈ previous.filter
      (fun q => ! dictMem (buildCurrentDict current) q.1) :=
    List.mem_filter.mpr ⟨hmem, by rw [hmemDict]; rfl⟩
  rw [h1, List.nil_append, changesFor_map_removed,
    filter_key_of_nodup hsubnd hmemF, List.map_singleton]

/-- With an empty prior dict, every emitted change is a NEW record. -/
theorem detect_empty_prior_all_new (etf d : String) (current : List HoldingRow) :
    ∀ ch ∈ detectChanges etf d current [], ch.change_type = ChangeType.NEW := by
  intro ch hch
  unfold detectChanges at hch
  rw [List.mem_append] at hch
  rcases hch with h1 | h2
  · rw [List.mem_flatMap] at h1
    obtain ⟨p, hp, hchp⟩ := h1
    rw [@classifyEntry_eq_of_none etf d [] p rfl, List.mem_singleton] at hchp
    rw [hchp]
  · simp at h2

/-! ### listMax? lemmas -/

theorem dateLe_refl (a : String) : dateLe a a :=
  le_refl _

theorem dateLe_trans {a b c : String} (h1 : dateLe a b) (h2 : dateLe b c) :
    dateLe a c :=
  le_trans h1 h2

theorem dateLe_of_dateLt {a b : String} (h : dateLt a b) : dateLe a b :=
  le_of_lt h

theorem dateLe_dateMax_left (a b : String) : dateLe a (dateMax a b) := by
  unfold dateMax
  split
  · next h => exact h
  · exact dateLe_refl a

theorem dateLe_dateMax_right (a b : String) : dateLe b (dateMax a b) := by
  unfold dateMax
  split
  · exact dateLe_refl b
  · next h => exact le_of_not_le h

theorem listMax?_eq_none : ∀ {l : List String}, listMax? l = none → l = [] := by
  intro l
  cases l with
  | nil => intro _; rfl
  | cons d ds =>
    intro h
    unfold listMax? at h
    cases hds : listMax? ds with
    | none => rw [hds] at h; simp at h
    | some m => rw [hds] at h; simp at h

theorem listMax?_mem : ∀ {l : List String} {m : String},
    listMax? l = some m → m ∈ l := by
  intro l
  induction l with
  | nil => intro m h; simp [listMax?] at h
  | cons d ds ih =>
    intro m h
    unfold listMax? at h
    cases hds : listMax? ds with
    | none =>
      rw [hds] at h
      injection h with h
      rw [← h]
      exact List.mem_cons_self d ds
    | some m2 =>
      rw [hds] at h
      injection h with h
      unfold dateMax at h
      split at h
      · have hmm : m = m2 := h.symm
        rw [hmm]
        exact List.mem_cons_of_mem d (ih hds)
      · have hmd : m = d := h.symm
        rw [hmd]
        exact List.mem_cons_self d ds

theorem listMax?_le : ∀ {l : List String} {m : String},
    listMax? l = some m → ∀ x ∈ l, dateLe x m := by
  intro l
  induction l with
  | nil => intro m _ x hx; simp at hx
  | cons d ds ih =>
    intro m h x hx
    unfold listMax? at h
    cases hds : listMax? ds with
    | none =>
      rw [hds] at h
      injection h with h
      have hnil := listMax?_eq_none hds
      subst hnil
      rcases List.mem_cons.mp hx with rfl | hxds
      · rw [← h]
        exact dateLe_refl x
      · simp at hxds
    | some m2 =>
      rw [hds] at h
      injection h with h
      rcases List.mem_cons.mp hx with rfl | hxds
      · rw [← h]
        exact dateLe_dateMax_left x m2
      · rw [← h]
        exact dateLe_trans (ih hds x hxds) (dateLe_dateMax_right d m2)

/-! ### Claim C1 -/

/-- C1: for every prior holdings map (pairwise-distinct keys) and every list
of current rows with pairwise-distinct instrument codes, the change detector
emits exactly one NEW change (old = 0) for each instrument in current but not
prior, exactly one REMOVED change (new = 0) for each instrument in prior but
not current, exactly one INCREASED change when the instrument is in both with
strictly greater current quantity, exactly one DECREASED change when strictly
smaller, and no change record at all when the quantities are equal — even if
the weight differs (the equal-quantity branch emits nothing regardless of the
weights). -/
theorem c1_change_detector_classification (etf d : String)
    (previous : List (String × PrevData)) (current : List HoldingRow)
    (hp : (previous.map Prod.fst).Nodup)
    (hc : (current.map (fun x => x.stock_code)).Nodup) :
    (∀ h ∈ current, dictGet? previous h.stock_code = none →
      changesFor (detectChanges etf d current previous) h.stock_code =
        [newChange etf d h]) ∧
    (∀ h ∈ current, ∀ old : PrevData,
      dictGet? previous h.stock_code = some old →
      changesFor (detectChanges etf d current previous) h.stock_code =
        (if old.shares < h.shares then [increasedChange etf d old h]
         else if h.shares < old.shares then [decreasedChange etf d old h]
         else [])) ∧
    (∀ q ∈ previous, (∀ h ∈ current, h.stock_code ≠ q.1) →
      changesFor (detectChanges etf d current previous) q.1 =
        [removedChange etf d q]) := by
  refine ⟨?_, ?_, ?_⟩
  · intro h hmem hnone
    exact detect_changesFor_of_not_prior etf d hc hmem hnone
  · intro h hmem old hsome
    exact detect_changesFor_of_prior etf d hc hmem hsome
  · intro q hq habs
    obtain ⟨c, x⟩ := q
    exact detect_changesFor_removed etf d hp hq habs

/-- Witness for C1 at the spec §8 scenario: prior {AAA: 100, BBB: 50},
current {AAA: 150, CCC: 10} — CCC is exactly one NEW, AAA exactly one
INCREASED, BBB exactly one REMOVED. -/
theorem c1_change_detector_classification_witness :
    changesFor (detectChanges "F1" "2024-01-02" exCurrent exPrior) "CCC" =
      [newChange "F1" "2024-01-02" exRowCCC] ∧
    changesFor (detectChanges "F1" "2024-01-02" exCurrent exPrior) "AAA" =
      [increasedChange "F1" "2024-01-02" exPrevAAA exRowAAA] ∧
    changesFor (detectChanges "F1" "2024-01-02" exCurrent exPrior) "BBB" =
      [removedChange "F1" "2024-01-02" ("BBB", exPrevBBB)] := by
  have h := c1_change_detector_classification "F1" "2024-01-02" exPrior
    exCurrent (by decide) (by decide)
  refine ⟨h.1 exRowCCC (by decide) (by decide), ?_, ?_⟩
  · have h2 := h.2.1 exRowAAA (by decide) exPrevAAA (by decide)
    rw [if_pos (show exPrevAAA.shares < exRowAAA.shares by decide)] at h2
    exact h2
  · exact h.2.2 ("BBB", exPrevBBB) (by decide) (by decide)

/-! ### Claim C5 -/

/-- C5 counterexample: the claim "if NEW then old_quantity == 0 and
new_quantity > 0" fails on the code.  A current row with quantity 0 (which
the normalizer produces for an unparseable quantity cell) that is absent from
the prior map yields a NEW change whose new_quantity is 0, not positive. -/
theorem c5_counterexample :
    ∃ ch ∈ detectChanges "F1" "2024-01-02" [exRowZero] [],
      ch.change_type = ChangeType.NEW ∧ ¬ 0 < ch.new_shares := by
  refine ⟨newChange "F1" "2024-01-02" exRowZero, by decide, rfl, by decide⟩

/-- Provenance of each emitted change record: a NEW record comes from a
current row with `old = 0` and `new` equal to that row's quantity; an
INCREASED/DECREASED record carries quantities in the strict order its branch
condition checked; a REMOVED record comes from a prior entry with `new = 0`
and `old` equal to that entry's quantity. -/
theorem detect_mem_cases (etf d : String)
    (previous : List (String × PrevData)) (current : List HoldingRow) :
    ∀ ch ∈ detectChanges etf d current previous,
      (∃ r ∈ current, ch.change_type = ChangeType.NEW ∧
        ch.old_shares = 0 ∧ ch.new_shares = r.shares) ∨
      (ch.change_type = ChangeType.INCREASED ∧
        ch.old_shares < ch.new_shares) ∨
      (ch.change_type = ChangeType.DECREASED ∧
        ch.new_shares < ch.old_shares) ∨
      (∃ q ∈ previous, ch.change_type = ChangeType.REMOVED ∧
        ch.new_shares = 0 ∧ ch.old_shares = q.2.shares) := by
  intro ch hch
  unfold detectChanges at hch
  rw [List.mem_append] at hch
  rcases hch with h1 | h2
  · rw [List.mem_flatMap] at h1
    obtain ⟨p, hpd, hchp⟩ := h1
    obtain ⟨r, hr, hpr⟩ := mem_buildDictBy hpd
    subst hpr
    unfold classifyEntry at hchp
    split at hchp
    · rw [List.mem_singleton] at hchp
      subst hchp
      exact Or.inl ⟨r, hr, rfl, rfl, rfl⟩
    · split at hchp
      · next hlt =>
        rw [List.mem_singleton] at hchp
        subst hchp
        exact Or.inr (Or.inl ⟨rfl, hlt⟩)
      · split at hchp
        · next hlt2 =>
          rw [List.mem_singleton] at hchp
          subst hchp
          exact Or.inr (Or.inr (Or.inl ⟨rfl, hlt2⟩))
        · simp at hchp
  · obtain ⟨q, hq, hqr⟩ := List.mem_map.mp h2
    obtain ⟨hqprev, _⟩ := List.mem_filter.mp hq
    subst hqr
    exact Or.inr (Or.inr (Or.inr ⟨q, hqprev, rfl, rfl, rfl⟩))

/-- C5 (amended): unconditionally, every change record satisfies:
INCREASED → new > old, DECREASED → new < old, NEW → old = 0,
REMOVED → new = 0 (this covers the counterexample's zero-quantity records);
and provided every current row and every prior entry carries a strictly
positive quantity, additionally NEW → new > 0 and REMOVED → old > 0. -/
theorem c5_change_type_invariant (etf d : String)
    (previous : List (String × PrevData)) (current : List HoldingRow) :
    (∀ ch ∈ detectChanges etf d current previous,
      (ch.change_type = ChangeType.INCREASED → ch.old_shares < ch.new_shares) ∧
      (ch.change_type = ChangeType.DECREASED → ch.new_shares < ch.old_shares) ∧
      (ch.change_type = ChangeType.NEW → ch.old_shares = 0) ∧
      (ch.change_type = ChangeType.REMOVED → ch.new_shares = 0)) ∧
    ((∀ h ∈ current, 0 < h.shares) → (∀ q ∈ previous, 0 < q.2.shares) →
      ∀ ch ∈ detectChanges etf d current previous,
        (ch.change_type = ChangeType.NEW → 0 < ch.new_shares) ∧
        (ch.change_type = ChangeType.REMOVED → 0 < ch.old_shares)) := by
  constructor
  · intro ch hch
    rcases detect_mem_cases etf d previous current ch hch with
      ⟨r, _, ht, ho, _⟩ | ⟨ht, hlt⟩ | ⟨ht, hlt⟩ | ⟨q, _, ht, hn, _⟩
    · exact ⟨fun hc => ChangeType.noConfusion (ht.symm.trans hc),
             fun hc => ChangeType.noConfusion (ht.symm.trans hc),
             fun _ => ho,
             fun hc => ChangeType.noConfusion (ht.symm.trans hc)⟩
    · exact ⟨fun _ => hlt,
             fun hc => ChangeType.noConfusion (ht.symm.trans hc),
             fun hc => ChangeType.noConfusion (ht.symm.trans hc),
             fun hc => ChangeType.noConfusion (ht.symm.trans hc)⟩
    · exact ⟨fun hc => ChangeType.noConfusion (ht.symm.trans hc),
             fun _ => hlt,
             fun hc => ChangeType.noConfusion (ht.symm.trans hc),
             fun hc => ChangeType.noConfusion (ht.symm.trans hc)⟩
    · exact ⟨fun hc => ChangeType.noConfusion (ht.symm.trans hc),
             fun hc => ChangeType.noConfusion (ht.symm.trans hc),
             fun hc => ChangeType.noConfusion (ht.symm.trans hc),
             fun _ => hn⟩
  · intro hcur hprev ch hch
    rcases detect_mem_cases etf d previous current ch hch with
      ⟨r, hr, ht, _, hn⟩ | ⟨ht, _⟩ | ⟨ht, _⟩ | ⟨q, hq, ht, _, ho⟩
    · exact ⟨fun _ => by rw [hn]; exact hcur r hr,
             fun hc => ChangeType.noConfusion (ht.symm.trans hc)⟩
    · exact ⟨fun hc => ChangeType.noConfusion (ht.symm.trans hc),
             fun hc => ChangeType.noConfusion (ht.symm.trans hc)⟩
    · exact ⟨fun hc => ChangeType.noConfusion (ht.symm.trans hc),
             fun hc => ChangeType.noConfusion (ht.symm.trans hc)⟩
    · exact ⟨fun hc => ChangeType.noConfusion (ht.symm.trans hc),
             fun _ => by rw [ho]; exact hprev q hq⟩

/-- Witness for C5 (amended): the unconditional part applied to the
counterexample's own zero-quantity NEW record still gives old = 0, and the
conditional part applied to the spec §8 scenario gives new = 10 > 0 for the
NEW change of CCC. -/
theorem c5_change_type_invariant_witness :
    (newChange "F1" "2024-01-02" exRowZero).old_shares = 0 ∧
    0 < (newChange "F1" "2024-01-02" exRowCCC).new_shares :=
  ⟨((c5_change_type_invariant "F1" "2024-01-02" [] [exRowZero]).1
      (newChange "F1" "2024-01-02" exRowZero) (by decide)).2.2.1 rfl,
   ((c5_change_type_invariant "F1" "2024-01-02" exPrior exCurrent).2
      (by decide) (by decide) (newChange "F1" "2024-01-02" exRowCCC)
      (by decide)).1 rfl⟩

/-! ### Claim C6 -/

/-- C6: the prior-snapshot lookup returns the holdings map at the single
greatest stored as-of date strictly below the given date for that fund; when
no strictly earlier date exists it returns the empty map (not an error), and
the subsequent diff classifies every current instrument as NEW.  Concretely:
(a) if the fund has no stored row strictly before `cur`, the lookup returns
`[]`, every change the detector then emits is NEW, and (with
pairwise-distinct current codes) every current instrument receives exactly
one NEW record; (b) if the previous
date `pd` exists, it is realized by a stored row of the fund, is strictly
below `cur`, dominates every other stored date of the fund strictly below
`cur`, every entry of the returned map comes from that day's rows, and (with
that day's codes pairwise distinct, the keyed uniqueness invariant) each of
that day's rows is retrievable from the map with its name, weight and
quantity. -/
theorem c6_prior_snapshot_lookup (db : List HoldingRow) (etf cur : String) :
    ((∀ r ∈ db, r.etf_code = etf → ¬ dateLt r.update_date cur) →
      get_previous_holdings db etf cur = [] ∧
      (∀ (current : List HoldingRow),
        ∀ ch ∈ detectChanges etf cur current (get_previous_holdings db etf cur),
          ch.change_type = ChangeType.NEW) ∧
      (∀ (current : List HoldingRow),
        (current.map (fun x => x.stock_code)).Nodup →
        ∀ h ∈ current,
          changesFor (detectChanges etf cur current
              (get_previous_holdings db etf cur)) h.stock_code =
            [newChange etf cur h])) ∧
    (∀ pd, prevDate? db etf cur = some pd →
      (∃ r ∈ db, r.etf_code = etf ∧ r.update_date = pd) ∧
      dateLt pd cur ∧
      (∀ r ∈ db, r.etf_code = etf → dateLt r.update_date cur →
        dateLe r.update_date pd) ∧
      (∀ p ∈ get_previous_holdings db etf cur, ∃ r ∈ rowsOn db etf pd,
        p = (r.stock_code, { stock_name := r.stock_name, weight := r.weight,
                             shares := r.shares : PrevData })) ∧
      (((rowsOn db etf pd).map (fun r => r.stock_code)).Nodup →
        ∀ r ∈ rowsOn db etf pd,
          dictGet? (get_previous_holdings db etf cur) r.stock_code =
            some { stock_name := r.stock_name, weight := r.weight,
                   shares := r.shares })) := by
  constructor
  · intro hno
    have hfil : priorRows db etf cur = [] := by
      apply List.filter_eq_nil_iff.mpr
      intro r hr hrp
      rw [decide_eq_true_eq] at hrp
      exact hno r hr hrp.1 hrp.2
    have hpd : prevDate? db etf cur = none := by
      unfold prevDate?
      rw [hfil]
      rfl
    have hempty : get_previous_holdings db etf cur = [] := by
      unfold get_previous_holdings
      rw [hpd]
    refine ⟨hempty, ?_, ?_⟩
    · intro current ch hch
      rw [hempty] at hch
      exact detect_empty_prior_all_new etf cur current ch hch
    · intro current hnd h hmem
      rw [hempty]
      exact detect_changesFor_of_not_prior etf cur hnd hmem rfl
  · intro pd hpd
    obtain ⟨r0, hr0, hr0d⟩ := List.mem_map.mp (listMax?_mem hpd)
    have hr0f := List.mem_filter.mp hr0
    have hr0p : r0.etf_code = etf ∧ dateLt r0.update_date cur := by
      simpa using hr0f.2
    have hg : get_previous_holdings db etf cur =
        buildDictBy (fun r => r.stock_code)
          (fun r => { stock_name := r.stock_name, weight := r.weight,
                      shares := r.shares : PrevData }) (rowsOn db etf pd) := by
      unfold get_previous_holdings
      rw [hpd]
    refine ⟨⟨r0, hr0f.1, hr0p.1, hr0d⟩, ?_, ?_, ?_, ?_⟩
    · rw [← hr0d]
      exact hr0p.2
    · intro r hr hretf hrlt
      apply listMax?_le hpd
      apply List.mem_map_of_mem
      apply List.mem_filter.mpr
      refine ⟨hr, ?_⟩
      rw [decide_eq_true_eq]
      exact ⟨hretf, hrlt⟩
    · intro p hp
      rw [hg] at hp
      exact mem_buildDictBy hp
    · intro hnd r hr
      rw [hg, buildDictBy_eq_map _ _ hnd]
      exact dictGet?_map_self (fun r => r.stock_code) _ hnd hr

/-- Witness for C6: in a four-row store, the lookup for fund F1 before
2024-01-02 picks 2024-01-01 (skipping 2023-12-31 and fund F2) and maps AAA to
its 2024-01-01 name, weight and quantity. -/
theorem c6_prior_snapshot_lookup_witness :
    dictGet? (get_previous_holdings exDB6 "F1" "2024-01-02") "AAA" =
      some { stock_name := "Alpha", weight := 1, shares := 100 } :=
  ((c6_prior_snapshot_lookup exDB6 "F1" "2024-01-02").2 "2024-01-01"
    (by decide)).2.2.2.2 (by decide) exRow6A (by decide)

/-! ### Claim C10 -/

/-- C10: when the prior-snapshot lookup's underlying query raises, the
exception is caught inside `get_previous_holdings` and the empty map is
returned (the function returns normally — the run is not aborted or failed at
this step), so the change detector behaves exactly as on a first-ever
ingestion: every change is NEW, and (with pairwise-distinct current codes)
every instrument of the current batch gets exactly one NEW record. -/
theorem c10_prior_lookup_failure_all_new (e : String) (etf d : String)
    (current : List HoldingRow)
    (hc : (current.map (fun x => x.stock_code)).Nodup) :
    get_previous_holdings_guarded (Except.error e) etf d = [] ∧
    (∀ ch ∈ detectChanges etf d current
        (get_previous_holdings_guarded (Except.error e) etf d),
      ch.change_type = ChangeType.NEW) ∧
    (∀ h ∈ current,
      changesFor (detectChanges etf d current
          (get_previous_holdings_guarded (Except.error e) etf d)) h.stock_code =
        [newChange etf d h]) := by
  refine ⟨rfl, ?_, ?_⟩
  · exact detect_empty_prior_all_new etf d current
  · intro h hmem
    exact detect_changesFor_of_not_prior etf d hc hmem rfl

/-- Witness for C10: with a failing storage query, the current instrument CCC
is classified as exactly one NEW change. -/
theorem c10_prior_lookup_failure_all_new_witness :
    changesFor (detectChanges "F1" "2024-01-02" exCurrent
        (get_previous_holdings_guarded (Except.error "boom") "F1" "2024-01-02"))
      "CCC" = [newChange "F1" "2024-01-02" exRowCCC] :=
  (c10_prior_lookup_failure_all_new "boom" "F1" "2024-01-02" exCurrent
    (by decide)).2.2 exRowCCC (by decide)

/-! ### Claim C7 -/

/-- C7: the normalizer keeps exactly the raw rows whose instrument code and
name are both non-empty (a bad row is dropped without failing the batch — the
remaining rows are still normalized, in order), and on each kept row parses
weight as a float (empty or unparseable → 0.0) and quantity as an integer
after stripping thousands-separator commas (empty or unparseable → 0). -/
theorem c7_row_normalizer (pFloat : String → Option Rat)
    (pInt : String → Option Int) (etf d : String) (rows : List RawRow) :
    parse_holdings_data pFloat pInt etf d rows =
      (rows.filter (fun r => ¬ (r.stock_code = "" ∨ r.stock_name = ""))).map
        (fun r =>
          { etf_code := etf, stock_code := r.stock_code,
            stock_name := r.stock_name,
            weight := if r.weight_str = "" then 0
                      else (pFloat r.weight_str).getD 0,
            shares := if r.shares_str = "" then 0
                      else (pInt (r.shares_str.replace "," "")).getD 0,
            unit := r.unit, update_date := d }) := by
  induction rows with
  | nil => rfl
  | cons r t ih =>
    by_cases hbad : r.stock_code = "" ∨ r.stock_name = ""
    · have hnone : parseRow pFloat pInt etf d r = none := by
        unfold parseRow
        rw [if_pos hbad]
      unfold parse_holdings_data at ih ⊢
      rw [List.filterMap_cons, hnone,
        List.filter_cons_of_neg (by
          simp only [decide_eq_true_eq]
          exact fun hcon => hcon hbad)]
      exact ih
    · have hsome : parseRow pFloat pInt etf d r = some
          { etf_code := etf, stock_code := r.stock_code,
            stock_name := r.stock_name,
            weight := if r.weight_str = "" then 0
                      else (pFloat r.weight_str).getD 0,
            shares := if r.shares_str = "" then 0
                      else (pInt (r.shares_str.replace "," "")).getD 0,
            unit := r.unit, update_date := d } := by
        unfold parseRow
        rw [if_neg hbad]
      unfold parse_holdings_data at ih ⊢
      rw [List.filterMap_cons, hsome,
        List.filter_cons_of_pos (by
          simp only [decide_eq_true_eq]
          exact hbad), List.map_cons]
      rw [ih]

/-! ### Claim C4 -/

/-- C4: saving an empty batch of current holdings is a no-op on storage — the
guard returns `False` before touching the database, so every fund and date
keeps its Holding and Change rows unchanged, and the empty batch is refused
(unsuccessful result) rather than overwriting the existing day. -/
theorem c4_empty_batch_noop (s : DBState) (cs : List Change) :
    (save_to_database s [] cs).1 = s ∧ (save_to_database s [] cs).2 = false :=
  ⟨rfl, rfl⟩

/-! ### Claim C2 -/

/-- The fault-free run of the fault-instrumented model is the plain model. -/
theorem save_to_database_faulty_noFault (s : DBState) (hs : List HoldingRow)
    (cs : List Change) :
    save_to_database_faulty FaultPoint.noFault s hs cs =
      save_to_database s hs cs := by
  cases hs with
  | nil => rfl
  | cons h0 t => rfl

/-- C2: a storage failure injected at any point of the persistence phase —
in particular after the holdings rows are written but before the change rows
are written (`FaultPoint.afterHoldings`) — rolls the whole transaction back:
the committed state (both the holdings store and the change-log store, for
every fund and date) is exactly what it was before, so the previously stored
data remains readable, and the caller receives `False` (an unsuccessful
result). -/
theorem c2_rollback_on_failure (fp : FaultPoint) (s : DBState)
    (hs : List HoldingRow) (cs : List Change)
    (hfp : fp ≠ FaultPoint.noFault) :
    save_to_database_faulty fp s hs cs = (s, false) := by
  cases hs with
  | nil => rfl
  | cons h0 t =>
    cases fp with
    | noFault => exact absurd rfl hfp
    | beforeDeletes => rfl
    | afterDeletes => rfl
    | afterHoldings => rfl
    | afterChanges => rfl

/-- Witness for C2: a failure between the holdings insert and the change
insert leaves the populated store untouched and reports failure. -/
theorem c2_rollback_on_failure_witness :
    save_to_database_faulty FaultPoint.afterHoldings exState
      [exRowAAA, exRowCCC] [exChangeNew] = (exState, false) :=
  c2_rollback_on_failure FaultPoint.afterHoldings exState
    [exRowAAA, exRowCCC] [exChangeNew] (by decide)

/-! ### Claim C3 -/

/-- The transaction body in closed form: the day's rows of both tables are
deleted and the new rows appended. -/
theorem txBody_eq (s : DBState) (etf d : String) (hs : List HoldingRow)
    (cs : List Change) :
    txBody s etf d hs cs =
      { holdings := s.holdings.filter
          (fun r => ¬ (r.etf_code = etf ∧ r.update_date = d)) ++ hs,
        changes := s.changes.filter
          (fun c => ¬ (c.etf_code = etf ∧ c.change_date = d)) ++ cs } := rfl

/-- Replaying the transaction body with the same single-day batch reproduces
the same state. -/
theorem txBody_idem (s : DBState) (etf d : String) (hs : List HoldingRow)
    (cs : List Change)
    (hkeys : ∀ h ∈ hs, h.etf_code = etf ∧ h.update_date = d)
    (ckeys : ∀ c ∈ cs, c.etf_code = etf ∧ c.change_date = d) :
    txBody (txBody s etf d hs cs) etf d hs cs = txBody s etf d hs cs := by
  have h2H : hs.filter
      (fun r => ¬ (r.etf_code = etf ∧ r.update_date = d)) = [] :=
    List.filter_eq_nil_iff.mpr (by
      intro a ha
      simp [(hkeys a ha).1, (hkeys a ha).2])
  have h2C : cs.filter
      (fun c => ¬ (c.etf_code = etf ∧ c.change_date = d)) = [] :=
    List.filter_eq_nil_iff.mpr (by
      intro a ha
      simp [(ckeys a ha).1, (ckeys a ha).2])
  simp only [txBody_eq, List.filter_append, List.filter_filter, Bool.and_self,
    h2H, h2C, List.append_nil]

/-- C3: re-running the save with the identical fund code, as-of date,
holdings rows and change rows (a batch carrying one fund and one date, as
`parse_holdings_data` produces) leaves the stores exactly as after the first
run — replace semantics, no duplicated rows — and reports success again. -/
theorem c3_save_idempotent (s : DBState) (hs : List HoldingRow)
    (cs : List Change) (h0 : HoldingRow) (hhead : hs.head? = some h0)
    (hkeys : ∀ h ∈ hs, h.etf_code = h0.etf_code ∧ h.update_date = h0.update_date)
    (ckeys : ∀ c ∈ cs, c.etf_code = h0.etf_code ∧ c.change_date = h0.update_date) :
    save_to_database (save_to_database s hs cs).1 hs cs =
      save_to_database s hs cs := by
  cases hs with
  | nil => simp at hhead
  | cons hh t =>
    rw [List.head?_cons] at hhead
    injection hhead with hh0
    subst hh0
    show (txBody (txBody s hh.etf_code hh.update_date (hh :: t) cs)
        hh.etf_code hh.update_date (hh :: t) cs, true) =
      (txBody s hh.etf_code hh.update_date (hh :: t) cs, true)
    rw [txBody_idem s hh.etf_code hh.update_date (hh :: t) cs hkeys ckeys]

/-- Witness for C3 at the spec §8 scenario batch. -/
theorem c3_save_idempotent_witness :
    save_to_database (save_to_database exState [exRowAAA, exRowCCC]
        [exChangeNew]).1 [exRowAAA, exRowCCC] [exChangeNew] =
      save_to_database exState [exRowAAA, exRowCCC] [exChangeNew] :=
  c3_save_idempotent exState [exRowAAA, exRowCCC] [exChangeNew] exRowAAA rfl
    (by decide) (by decide)

/-! ### Claim C8 -/

theorem uniqueKeys_filter (l : List HoldingRow) (p : HoldingRow → Bool)
    (h : UniqueKeys l) : UniqueKeys (l.filter p) :=
  List.Pairwise.sublist (List.filter_sublist l) h

/-- The PostgreSQL insert loop preserves key uniqueness: every successful
insert was checked against the pending table by the unique index. -/
theorem pgFold_preserves : ∀ (hs : List HoldingRow) (st : DBState),
    UniqueKeys st.holdings →
    ∀ s2, hs.foldlM pgInsertHoldingRow st = Except.ok s2 →
      UniqueKeys s2.holdings := by
  intro hs
  induction hs with
  | nil =>
    intro st hst s2 h
    have : st = s2 := by
      simpa [List.foldlM, pure, Except.pure] using h
    rw [← this]
    exact hst
  | cons a t ih =>
    intro st hst s2 h
    rw [List.foldlM_cons] at h
    cases hins : pgInsertHoldingRow st a with
    | error e =>
      rw [hins] at h
      simp [Bind.bind, Except.bind] at h
    | ok st2 =>
      rw [hins] at h
      unfold pgInsertHoldingRow at hins
      split at hins
      · simp at hins
      · next hnone =>
        injection hins with hins
        have hnew : UniqueKeys st2.holdings := by
          rw [← hins]
          show UniqueKeys (st.holdings ++ [a])
          rw [UniqueKeys, List.pairwise_append]
          refine ⟨hst, by simp, ?_⟩
          intro x hx b hb
          rw [List.mem_singleton] at hb
          subst hb
          intro hkey
          apply hnone
          rw [List.any_eq_true]
          exact ⟨x, hx, decide_eq_true hkey⟩
        apply ih st2 hnew s2
        simpa [Bind.bind, Except.bind] using h

/-- C8 counterexample: on the SQLite backend (no unique index is created
there — `idx_unique_holding` is PostgreSQL-only), saving a batch containing
two rows with the same instrument code for the same fund and date produces a
stored state with two rows sharing the key (fund, instrument, date). -/
theorem c8_counterexample :
    ¬ UniqueKeys (save_to_database { holdings := [], changes := [] }
        [exDupA, exDupB] []).1.holdings := by
  decide

/-- C8 (amended): (a) on the PostgreSQL backend, where the unique index
exists, every reachable state keeps the holdings unique on (fund_code,
instrument_code, as_of_date) — a batch that would violate the key makes the
insert raise, the transaction roll back, and the state unchanged; (b) on the
SQLite backend, uniqueness is preserved only when the input batch itself
carries one fund and date and pairwise-distinct instrument codes. -/
theorem c8_unique_key_invariant :
    (∀ (s : DBState) (hs : List HoldingRow) (cs : List Change),
      UniqueKeys s.holdings →
      UniqueKeys (save_to_database_pg s hs cs).1.holdings) ∧
    (∀ (s : DBState) (hs : List HoldingRow) (cs : List Change)
        (h0 : HoldingRow), hs.head? = some h0 →
      (∀ h ∈ hs, h.etf_code = h0.etf_code ∧ h.update_date = h0.update_date) →
      (hs.map (fun h => h.stock_code)).Nodup →
      UniqueKeys s.holdings →
      UniqueKeys (save_to_database s hs cs).1.holdings) := by
  constructor
  · intro s hs cs hu
    cases hs with
    | nil => exact hu
    | cons h0 t =>
      cases hpg : pgTxBody s h0.etf_code h0.update_date (h0 :: t) cs with
      | error e =>
        have heq : save_to_database_pg s (h0 :: t) cs = (s, false) := by
          simp only [save_to_database_pg]
          rw [hpg]
        rw [heq]
        exact hu
      | ok s2 =>
        have heq : save_to_database_pg s (h0 :: t) cs = (s2, true) := by
          simp only [save_to_database_pg]
          rw [hpg]
        rw [heq]
        unfold pgTxBody at hpg
        cases hf : (h0 :: t).foldlM pgInsertHoldingRow
            (deleteChangesDay (deleteHoldingsDay s h0.etf_code h0.update_date)
              h0.etf_code h0.update_date) with
        | error e =>
          rw [hf] at hpg
          simp at hpg
        | ok sf =>
          rw [hf] at hpg
          rw [Except.ok.injEq] at hpg
          have hdel : UniqueKeys (deleteChangesDay
              (deleteHoldingsDay s h0.etf_code h0.update_date)
              h0.etf_code h0.update_date).holdings :=
            uniqueKeys_filter _ _ hu
          have hsf := pgFold_preserves (h0 :: t) _ hdel sf hf
          rw [← hpg]
          exact hsf
  · intro s hs cs h0 hhead hkeys hnd hu
    cases hs with
    | nil => exact hu
    | cons hh t =>
      rw [List.head?_cons] at hhead
      injection hhead with hh0
      subst hh0
      show UniqueKeys ((txBody s hh.etf_code hh.update_date (hh :: t) cs).holdings)
      rw [txBody_eq]
      rw [UniqueKeys, List.pairwise_append]
      refine ⟨uniqueKeys_filter _ _ hu, ?_, ?_⟩
      · have hne := List.pairwise_map.mp hnd
        exact hne.imp (fun hab hkey => hab hkey.2.1)
      · intro a ha b hb hkey
        have haP := (List.mem_filter.mp ha).2
        rw [decide_eq_true_eq] at haP
        have hbk := hkeys b hb
        exact haP ⟨hkey.1.trans hbk.1, hkey.2.2.trans hbk.2⟩

/-- Witness for C8 (amended), PostgreSQL part: the duplicate-code batch is
rejected by the unique index, the state stays empty and unique. -/
theorem c8_unique_key_invariant_witness :
    UniqueKeys (save_to_database_pg { holdings := [], changes := [] }
        [exDupA, exDupB] []).1.holdings :=
  c8_unique_key_invariant.1 { holdings := [], changes := [] }
    [exDupA, exDupB] [] List.Pairwise.nil

/-! ### Claim C9 -/

/-- C9 counterexample: the claim "the cross-fund view contains exactly the
instruments held by 2 or more distinct funds on that date" fails on the code.
The SQL groups by the pair (stock_code, stock_name); an instrument code held
by two distinct funds under two different stored names (2330 as "TSMC" in
fund FA and as "TaiwanSemi" in fund FB) is held by 2 distinct funds, yet the
view is empty. -/
theorem c9_counterexample :
    specFundCountByCode exDBCrossNames "2024-01-02" "2330" = 2 ∧
    get_cross_etf_holdings exDBCrossNames "2024-01-02" = [] := by
  constructor
  · decide
  · unfold get_cross_etf_holdings
    rw [show crossQueryRows exDBCrossNames "2024-01-02" = [] from by decide]
    exact List.perm_nil.mp (List.mergeSort_perm [] _)

/-- C9 (amended): grouping is by the pair (instrument code, stored name).
For a given date the cross-fund view contains exactly the (code, name) pairs
whose rows on that date span 2 or more distinct funds, and each reported row
carries etf_count = that distinct-fund count and total_shares = the sum of
the quantities of that group's rows.  (When every stored row of a code on
that date carries one and the same name — the intended data shape — this
coincides with the claim's per-instrument reading.) -/
theorem c9_cross_fund_view (db : List HoldingRow) (d : String) :
    (∀ code name : String,
      (∃ cr ∈ get_cross_etf_holdings db d,
        cr.stock_code = code ∧ cr.stock_name = name) ↔
      2 ≤ distinctEtfCount db d code name) ∧
    (∀ cr ∈ get_cross_etf_holdings db d,
      cr.etf_count = distinctEtfCount db d cr.stock_code cr.stock_name ∧
      cr.total_shares = sumShares db d cr.stock_code cr.stock_name) := by
  have hmem : ∀ cr : CrossRow, cr ∈ get_cross_etf_holdings db d ↔
      ∃ k ∈ ((rowsAtDate db d).map
          (fun r => (r.stock_code, r.stock_name))).dedup,
        2 ≤ distinctEtfCount db d k.1 k.2 ∧
        { stock_code := k.1, stock_name := k.2,
          etf_count := distinctEtfCount db d k.1 k.2,
          total_shares := sumShares db d k.1 k.2 : CrossRow } = cr := by
    intro cr
    unfold get_cross_etf_holdings crossQueryRows
    rw [List.mem_mergeSort, List.mem_map]
    constructor
    · rintro ⟨k, hk, hcrk⟩
      rw [List.mem_filter] at hk
      exact ⟨k, hk.1, by simpa using hk.2, hcrk⟩
    · rintro ⟨k, hk, hcnt, hcrk⟩
      exact ⟨k, List.mem_filter.mpr ⟨hk, by simpa using hcnt⟩, hcrk⟩
  constructor
  · intro code name
    constructor
    · rintro ⟨cr, hcr, hcode, hname⟩
      obtain ⟨k, _, hcnt, hcrk⟩ := (hmem cr).mp hcr
      have h1 : k.1 = code := by rw [← hcode, ← hcrk]
      have h2 : k.2 = name := by rw [← hname, ← hcrk]
      rw [← h1, ← h2]
      exact hcnt
    · intro hcnt
      have hne : groupRows db d code name ≠ [] := by
        intro h0
        unfold distinctEtfCount at hcnt
        rw [h0] at hcnt
        simp at hcnt
      obtain ⟨r, hr⟩ := List.exists_mem_of_ne_nil _ hne
      have hr2 := List.mem_filter.mp hr
      have hrp : r.stock_code = code ∧ r.stock_name = name := by
        simpa using hr2.2
      refine ⟨{ stock_code := code, stock_name := name,
                etf_count := distinctEtfCount db d code name,
                total_shares := sumShares db d code name }, ?_, rfl, rfl⟩
      apply (hmem _).mpr
      refine ⟨(code, name), ?_, hcnt, rfl⟩
      rw [List.mem_dedup, List.mem_map]
      exact ⟨r, hr2.1, by rw [hrp.1, hrp.2]⟩
  · intro cr hcr
    obtain ⟨k, _, _, hcrk⟩ := (hmem cr).mp hcr
    rw [← hcrk]
    exact ⟨rfl, rfl⟩

/-- Witness for C9 (amended) at the spec §8 cross-fund example: 2330 held as
quantities 100 (fund FA) and 200 (fund FB) on one date appears in the view
(with etf_count 2 and total 300, checked in the count hypothesis). -/
theorem c9_cross_fund_view_witness :
    ∃ cr ∈ get_cross_etf_holdings exDBCross "2024-01-02",
      cr.stock_code = "2330" ∧ cr.stock_name = "TSMC" :=
  ((c9_cross_fund_view exDBCross "2024-01-02").1 "2330" "TSMC").mpr (by decide)

end EtfMonitor
